import Mathlib

/-!
Verification of the jsonappender library (Go).

Shallow embedding conventions:
* Go byte slices and strings are `List Nat`, each entry a byte value < 256.
* Go machine integers are `Int` / `Nat`.
* The stateless append functions become Lean functions on byte lists.
* The scan loop of the string encoder is embedded with an explicit fuel
  parameter, because the loop in the source does not always advance its
  index; `none` means the loop did not finish within the given fuel, and
  a result of `none` for every fuel is non-termination of the source loop.
* Fallible functions return a pair of the result buffer and an optional
  error, mirroring the Go `([]byte, error)` convention (a Go `nil` slice
  is the empty list).
-/

namespace JA

/-- Error values produced by the library.  `yearOutOfRange` models the
`fmt.Errorf` value of `Time`, `unsupportedFloatValue` the one of `Float64`,
and `delegated n` an opaque error surfaced from a marshaler, appender,
underlying writer or the reflective fallback. -/
inductive JAErr where
  | yearOutOfRange
  | unsupportedFloatValue
  | delegated (code : Nat)
deriving DecidableEq, Repr

/-- Indexing into the constant `hex = "0123456789abcdef"` of `String`. -/
def hexDigit (n : Nat) : Nat :=
  if n < 10 then 48 + n else 87 + n

/-- The `htmlSafeSet` table of the source: for a byte `b < 0x80`, true for
every ASCII character except the control characters 0-31, double quote,
ampersand, less-than, greater-than and backslash (0x7F is safe). -/
def htmlSafeSet (b : Nat) : Bool :=
  decide (32 ≤ b) && decide (b < 128) && !(decide (b = 34)) && !(decide (b = 38)) &&
    !(decide (b = 60)) && !(decide (b = 62)) && !(decide (b = 92))

/-- The bytes appended after the backslash for an unsafe ASCII byte,
from the `switch b` of `String` (lines 336-352 of the source):
backslash and quote stand for themselves, newline, carriage return and
tab become `n`, `r`, `t`, and every other byte becomes
`u00` followed by two lowercase hex digits. -/
def escBytes (b : Nat) : List Nat :=
  if b = 92 ∨ b = 34 then [b]
  else if b = 10 then [110]
  else if b = 13 then [114]
  else if b = 9 then [116]
  else [117, 48, 48, hexDigit (b / 16), hexDigit (b % 16)]

/-- `utf8.RuneError`, the Unicode replacement character U+FFFD. -/
def RuneError : Nat := 0xFFFD

/-- First-byte classification of Go `unicode/utf8`: for a leading byte of a
multi-byte sequence, the sequence size together with the accepted range of
the second byte; `none` for bytes that cannot start a valid sequence. -/
def utf8AcceptRange (b0 : Nat) : Option (Nat × Nat × Nat) :=
  if 0xC2 ≤ b0 ∧ b0 ≤ 0xDF then some (2, 0x80, 0xBF)
  else if b0 = 0xE0 then some (3, 0xA0, 0xBF)
  else if 0xE1 ≤ b0 ∧ b0 ≤ 0xEC then some (3, 0x80, 0xBF)
  else if b0 = 0xED then some (3, 0x80, 0x9F)
  else if 0xEE ≤ b0 ∧ b0 ≤ 0xEF then some (3, 0x80, 0xBF)
  else if b0 = 0xF0 then some (4, 0x90, 0xBF)
  else if 0xF1 ≤ b0 ∧ b0 ≤ 0xF3 then some (4, 0x80, 0xBF)
  else if b0 = 0xF4 then some (4, 0x80, 0x8F)
  else none

/-- Go `utf8.DecodeRuneInString` on the byte-list view of a string: returns
the decoded code point and its size in bytes; `(RuneError, 1)` for an
invalid encoding (overlong forms, surrogates and values above U+10FFFF are
invalid), `(RuneError, 0)` for the empty string. -/
def decodeRuneInString (s : List Nat) : Nat × Nat :=
  match s with
  | [] => (RuneError, 0)
  | b0 :: rest =>
    if b0 < 0x80 then (b0, 1)
    else
      match utf8AcceptRange b0 with
      | none => (RuneError, 1)
      | some (sz, lo, hi) =>
        match rest with
        | [] => (RuneError, 1)
        | b1 :: rest1 =>
          if b1 < lo ∨ hi < b1 then (RuneError, 1)
          else if sz = 2 then ((b0 % 0x20) * 0x40 + b1 % 0x40, 2)
          else
            match rest1 with
            | [] => (RuneError, 1)
            | b2 :: rest2 =>
              if b2 < 0x80 ∨ 0xBF < b2 then (RuneError, 1)
              else if sz = 3 then
                ((b0 % 0x10) * 0x1000 + (b1 % 0x40) * 0x40 + b2 % 0x40, 3)
              else
                match rest2 with
                | [] => (RuneError, 1)
                | b3 :: _ =>
                  if b3 < 0x80 ∨ 0xBF < b3 then (RuneError, 1)
                  else ((b0 % 8) * 0x40000 + (b1 % 0x40) * 0x1000 +
                          (b2 % 0x40) * 0x40 + b3 % 0x40, 4)

/-- The scan loop of `String` (source lines 326-383), with an explicit fuel
so that the embedding is total: each loop iteration consumes one unit of
fuel, and `none` means the fuel ran out before the loop finished.  The
body mirrors the source exactly, including the five-byte escape
`\uffd` of the invalid-UTF-8 branch and the fact that the U+2028/U+2029
branch does not advance `i`. -/
def stringLoop : Nat → List Nat → Nat → Nat → List Nat → Option (List Nat)
  | 0, _, _, _, _ => none
  | fuel + 1, s, i, start, buf =>
    if h : i < s.length then
      let b := s.get ⟨i, h⟩
      if b < 0x80 then
        if htmlSafeSet b then
          stringLoop fuel s (i + 1) start buf
        else
          let buf1 := if start < i then buf ++ ((s.drop start).take (i - start)) else buf
          let buf2 := buf1 ++ 92 :: escBytes b
          stringLoop fuel s (i + 1) (i + 1) buf2
      else
        let cs := decodeRuneInString (s.drop i)
        if cs.1 = RuneError ∧ cs.2 = 1 then
          let buf1 := if start < i then buf ++ ((s.drop start).take (i - start)) else buf
          let buf2 := buf1 ++ [92, 117, 102, 102, 100]
          stringLoop fuel s (i + cs.2) (i + cs.2) buf2
        else if cs.1 = 0x2028 ∨ cs.1 = 0x2029 then
          let buf1 := if start < i then buf ++ ((s.drop start).take (i - start)) else buf
          let buf2 := buf1 ++ [92, 117, 50, 48, 50, hexDigit (cs.1 % 16)]
          stringLoop fuel s i i buf2
        else
          stringLoop fuel s (i + cs.2) start buf
    else
      let buf1 := if start < s.length then buf ++ s.drop start else buf
      some (buf1 ++ [34])

/-- The stateless `String` append function: opening quote, then the scan
loop (which appends the closing quote when it finishes). -/
def String (fuel : Nat) (s : List Nat) (buf : List Nat) : Option (List Nat) :=
  stringLoop fuel s 0 0 (buf ++ [34])

/-- The stateless `FieldName` append function: `String` then a colon. -/
def FieldName (fuel : Nat) (name : List Nat) (buf : List Nat) : Option (List Nat) :=
  match String fuel name buf with
  | none => none
  | some b => some (b ++ [58])

/-- Decimal digits of a natural number, most significant first, as byte
values; the first argument is structural fuel bounded below by the number
itself so the definition reduces by evaluation. -/
def natDecimalAux : Nat → Nat → List Nat
  | 0, n => [48 + n % 10]
  | fuel + 1, n => if n < 10 then [48 + n] else natDecimalAux fuel (n / 10) ++ [48 + n % 10]

/-- Base-10 digits of a natural number as bytes (`strconv.FormatUint`). -/
def natDecimal (n : Nat) : List Nat := natDecimalAux n n

/-- Go `strconv.FormatInt(v, 10)` as bytes: minus sign for negative values,
then the decimal digits of the absolute value. -/
def formatInt (v : Int) : List Nat :=
  if v < 0 then 45 :: natDecimal (-v).toNat else natDecimal v.toNat

/-- Go `strconv.FormatUint(v, 10)` as bytes. -/
def formatUint (v : Nat) : List Nat := natDecimal v

/-- The stateless `Int64` append function. -/
def Int64 (val : Int) (buf : List Nat) : List Nat := buf ++ formatInt val

/-- The stateless `Uint64` append function. -/
def Uint64 (val : Nat) (buf : List Nat) : List Nat := buf ++ formatUint val

/-- A Go `time.Time` as the string encoder sees it: its `Year()` and the
bytes `t.AppendFormat(nil, time.RFC3339Nano)` would append (the RFC 3339
rendering itself is Go standard-library behaviour and is kept abstract as
a field; `Time` only tests the year and concatenates). -/
structure GoTime where
  year : Int
  rfc3339Nano : List Nat
deriving DecidableEq, Repr

/-- The stateless `Time` append function (source lines 153-163): for a year
outside [0, 9999] it returns the pair of a `nil` buffer (the empty list)
and an error, otherwise the buffer extended with the quoted RFC 3339
rendering. -/
def Time (t : GoTime) (buf : List Nat) : List Nat × Option JAErr :=
  if t.year < 0 ∨ 10000 ≤ t.year then ([], some .yearOutOfRange)
  else (buf ++ 34 :: t.rfc3339Nano ++ [34], none)

/-- A Go `float64` as `Float64` observes it: NaN, an infinity, or a finite
value carrying the bytes that `strconv.AppendFloat` followed by the
exponent-cleanup pass of the source would append for it.  The digit
selection itself is IEEE-754 behaviour of the Go standard library and is
kept abstract. -/
inductive GoFloat where
  | nan
  | posInf
  | negInf
  | finite (fmtBytes : List Nat)
deriving DecidableEq, Repr

/-- Go `math.IsNaN`. -/
def GoFloat.isNaN : GoFloat → Bool
  | .nan => true
  | _ => false

/-- Go `math.IsInf(f, 0)`. -/
def GoFloat.isInf : GoFloat → Bool
  | .posInf => true
  | .negInf => true
  | _ => false

/-- The formatted bytes of a finite value (empty for NaN/infinities, where
the source never reaches the formatting step). -/
def GoFloat.fmtBytes : GoFloat → List Nat
  | .finite bs => bs
  | _ => []

/-- The stateless `Float64` append function (source lines 178-205): error
with the buffer unchanged for NaN and infinities, otherwise the buffer
extended with the formatted bytes. -/
def Float64 (f : GoFloat) (buf : List Nat) : List Nat × Option JAErr :=
  if f.isInf || f.isNaN then (buf, some .unsupportedFloatValue)
  else (buf ++ f.fmtBytes, none)

/-- The dynamically-typed argument of `Value`, one constructor per dynamic
type relevant to the type switch of the source.  `str`, `f64`, `i64`,
`int`, `u64`, `uint`, `time`, `object`, `array` are the types the switch
matches; `appender` is a value implementing `JSONAppender` (its
`AppendJSON` method is the carried function); `marshaler` a value
implementing `json.Marshaler` (carrying the result of `MarshalJSON`);
`i32` and `u32` are `int32`/`uint32` values, integer widths the switch
does not match; `other` is any other unmatched value, carrying the bytes
and error `json.Marshal` produces for it. -/
inductive JValue where
  | str (s : List Nat)
  | f64 (f : GoFloat)
  | i64 (v : Int)
  | int (v : Int)
  | u64 (v : Nat)
  | uint (v : Nat)
  | time (t : GoTime)
  | object (mp : List (List Nat × JValue))
  | array (vs : List JValue)
  | appender (appendJSON : List Nat → List Nat × Option JAErr)
  | marshaler (bs : List Nat) (err : Option JAErr)
  | i32 (v : Int)
  | u32 (v : Nat)
  | other (bs : List Nat) (err : Option JAErr)

/-- Go `encoding/json.Marshal` for the values that reach the reflective
fallback of `Value` (the constructors the type switch does not match):
an `int32`/`uint32` marshals to its decimal digits with no error, and an
`other` value carries its marshal result directly.  Matched constructors
never reach the fallback; for them this returns the empty result. -/
def jsonMarshal : JValue → List Nat × Option JAErr
  | .i32 v => (formatInt v, none)
  | .u32 v => (formatUint v, none)
  | .other bs err => (bs, err)
  | _ => ([], none)

mutual

/-- The polymorphic `Value` append function (source lines 220-248): the
type switch in source order, with the reflective `json.Marshal` fallback
for unmatched values.  `fuel` is the string-scan fuel threaded into every
`String`/`FieldName` call; `none` means a string scan inside did not
finish. -/
def Value (fuel : Nat) (val : JValue) (buf : List Nat) : Option (List Nat × Option JAErr) :=
  match val with
  | .str s => (String fuel s buf).map (fun b => (b, none))
  | .f64 f => some (Float64 f buf)
  | .i64 v => some (Int64 v buf, none)
  | .int v => some (Int64 v buf, none)
  | .u64 v => some (Uint64 v buf, none)
  | .uint v => some (Uint64 v buf, none)
  | .time t => some (Time t buf)
  | .object mp => objectLoop fuel false mp (buf ++ [123])
  | .array vs => arrayLoop fuel false vs (buf ++ [91])
  | .appender f => some (f buf)
  | .marshaler bs err => some (buf ++ bs, err)
  | .i32 v => some (buf ++ (jsonMarshal (.i32 v)).1, (jsonMarshal (.i32 v)).2)
  | .u32 v => some (buf ++ (jsonMarshal (.u32 v)).1, (jsonMarshal (.u32 v)).2)
  | .other bs err => some (buf ++ (jsonMarshal (.other bs err)).1, (jsonMarshal (.other bs err)).2)

/-- The loop of `Object` (source lines 264-279): `comma` is the flag that
is false only before the first entry; each entry appends a comma when the
flag is set, then the field name, then the value, aborting with the
value's error when it fails; the closing brace is appended only when the
loop runs off the end of the entry list. -/
def objectLoop (fuel : Nat) (comma : Bool) (entries : List (List Nat × JValue))
    (buf : List Nat) : Option (List Nat × Option JAErr) :=
  match entries with
  | [] => some (buf ++ [125], none)
  | (k, v) :: rest =>
    let buf1 := if comma then buf ++ [44] else buf
    match FieldName fuel k buf1 with
    | none => none
    | some buf2 =>
      match Value fuel v buf2 with
      | none => none
      | some (buf3, some e) => some (buf3, some e)
      | some (buf3, none) => objectLoop fuel true rest buf3

/-- The loop of `Array` (source lines 296-309), same shape as the object
loop without field names. -/
def arrayLoop (fuel : Nat) (comma : Bool) (vs : List JValue)
    (buf : List Nat) : Option (List Nat × Option JAErr) :=
  match vs with
  | [] => some (buf ++ [93], none)
  | v :: rest =>
    let buf1 := if comma then buf ++ [44] else buf
    match Value fuel v buf1 with
    | none => none
    | some (buf2, some e) => some (buf2, some e)
    | some (buf2, none) => arrayLoop fuel true rest buf2

end

/-- The `Object` append function: opening brace then the entry loop.  The
entry list is the key/value pairs of the Go map in the iteration order the
runtime happens to produce. -/
def Object (fuel : Nat) (mp : List (List Nat × JValue)) (buf : List Nat) :
    Option (List Nat × Option JAErr) :=
  objectLoop fuel false mp (buf ++ [123])

/-- The `Array` append function: opening bracket then the element loop. -/
def Array (fuel : Nat) (vs : List JValue) (buf : List Nat) :
    Option (List Nat × Option JAErr) :=
  arrayLoop fuel false vs (buf ++ [91])

/-- The branch of the type switch of `Value` that a value selects. -/
inductive Branch where
  | strB
  | floatB
  | int64B
  | uint64B
  | timeB
  | objectB
  | arrayB
  | appenderB
  | marshalerB
  | fallbackB
deriving DecidableEq, Repr

/-- The type switch of `Value` (source lines 221-245) as a classifier:
which branch handles each dynamic type.  `int64`/`int` go to the `Int64`
branch, `uint64`/`uint` to the `Uint64` branch, and every unmatched type,
including the narrower integer widths `int32`/`uint32`, to the reflective
fallback. -/
def dispatch : JValue → Branch
  | .str _ => .strB
  | .f64 _ => .floatB
  | .i64 _ => .int64B
  | .int _ => .int64B
  | .u64 _ => .uint64B
  | .uint _ => .uint64B
  | .time _ => .timeB
  | .object _ => .objectB
  | .array _ => .arrayB
  | .appender _ => .appenderB
  | .marshaler _ _ => .marshalerB
  | .i32 _ => .fallbackB
  | .u32 _ => .fallbackB
  | .other _ _ => .fallbackB

/-- Model of the `bufio.Writer` collaborator (Go standard library; the
sink abstraction of the spec): `written` is the bytes it has accepted so
far, and `failErr` the error the underlying sink injects on a write or
flush (`none` for a healthy sink). -/
structure BufioWriter where
  written : List Nat
  failErr : Option JAErr
deriving DecidableEq, Repr

/-- A write against the buffered sink: fails with the injected error
leaving the sink unchanged, otherwise accepts the bytes. -/
def BufioWriter.write (w : BufioWriter) (bs : List Nat) : BufioWriter × Option JAErr :=
  match w.failErr with
  | some e => (w, some e)
  | none => ({ w with written := w.written ++ bs }, none)

/-- The `BufWriter` state: the latched `Error` field, the buffered writer,
and the reused scratch buffer `stringBuf`. -/
structure BufWriter where
  Error : Option JAErr
  writer : BufioWriter
  stringBuf : List Nat
deriving DecidableEq, Repr

/-- `BufWriter.Flush` (source lines 36-42): in the latched state it
returns the latched error without touching the writer; otherwise it
flushes and latches the flush error. -/
def BufWriter.Flush (bw : BufWriter) : BufWriter × Option JAErr :=
  match bw.Error with
  | some e => (bw, some e)
  | none => ({ bw with Error := bw.writer.failErr }, bw.writer.failErr)

/-- `BufWriter.Reset` (source lines 45-52): clears the latched error and
rebinds the writer to a fresh sink, keeping the scratch buffer. -/
def BufWriter.Reset (bw : BufWriter) (w : BufioWriter) : BufWriter :=
  { bw with Error := none, writer := w }

/-- `BufWriter.Raw` (source lines 55-60). -/
def BufWriter.Raw (bw : BufWriter) (val : List Nat) : BufWriter :=
  match bw.Error with
  | some _ => bw
  | none =>
    let we := bw.writer.write val
    { bw with writer := we.1, Error := we.2 }

/-- `BufWriter.RawString` (source lines 63-68); a Go string is its bytes. -/
def BufWriter.RawString (bw : BufWriter) (val : List Nat) : BufWriter :=
  match bw.Error with
  | some _ => bw
  | none =>
    let we := bw.writer.write val
    { bw with writer := we.1, Error := we.2 }

/-- `BufWriter.RawByte` (source lines 71-76). -/
def BufWriter.RawByte (bw : BufWriter) (val : Nat) : BufWriter :=
  match bw.Error with
  | some _ => bw
  | none =>
    let we := bw.writer.write [val]
    { bw with writer := we.1, Error := we.2 }

/-- `BufWriter.Int64` (source lines 79-84). -/
def BufWriter.Int64 (bw : BufWriter) (val : Int) : BufWriter :=
  match bw.Error with
  | some _ => bw
  | none =>
    let we := bw.writer.write (formatInt val)
    { bw with writer := we.1, Error := we.2 }

/-- `BufWriter.Uint64` (source lines 92-97). -/
def BufWriter.Uint64 (bw : BufWriter) (val : Nat) : BufWriter :=
  match bw.Error with
  | some _ => bw
  | none =>
    let we := bw.writer.write (formatUint val)
    { bw with writer := we.1, Error := we.2 }

/-- `BufWriter.Bool` (source lines 121-130): writes the literal bytes of
`true` or `false`. -/
def BufWriter.Bool (bw : BufWriter) (val : Bool) : BufWriter :=
  match bw.Error with
  | some _ => bw
  | none =>
    let we := bw.writer.write (if val then [116, 114, 117, 101] else [102, 97, 108, 115, 101])
    { bw with writer := we.1, Error := we.2 }

/-- `BufWriter.FieldName` (source lines 105-112): encodes the name into
the scratch buffer re-sliced to length zero, appends the colon, and
writes the scratch buffer; `none` when the string scan does not finish. -/
def BufWriter.FieldName (bw : BufWriter) (fuel : Nat) (name : List Nat) : Option BufWriter :=
  match bw.Error with
  | some _ => some bw
  | none =>
    match JA.String fuel name [] with
    | none => none
    | some sb0 =>
      let sb := sb0 ++ [58]
      let we := bw.writer.write sb
      some { Error := we.2, writer := we.1, stringBuf := sb }

/-- `BufWriter.String` (source lines 313-319). -/
def BufWriter.String (bw : BufWriter) (fuel : Nat) (val : List Nat) : Option BufWriter :=
  match bw.Error with
  | some _ => some bw
  | none =>
    match JA.String fuel val [] with
    | none => none
    | some sb =>
      let we := bw.writer.write sb
      some { Error := we.2, writer := we.1, stringBuf := sb }

/-- `BufWriter.Time` (source lines 141-150): encodes into the scratch
buffer, latches the encode error without writing, otherwise writes. -/
def BufWriter.Time (bw : BufWriter) (t : GoTime) : BufWriter :=
  match bw.Error with
  | some _ => bw
  | none =>
    let r := JA.Time t []
    match r.2 with
    | some e => { bw with stringBuf := r.1, Error := some e }
    | none =>
      let we := bw.writer.write r.1
      { Error := we.2, writer := we.1, stringBuf := r.1 }

/-- `BufWriter.Float64` (source lines 166-175). -/
def BufWriter.Float64 (bw : BufWriter) (f : GoFloat) : BufWriter :=
  match bw.Error with
  | some _ => bw
  | none =>
    let r := JA.Float64 f []
    match r.2 with
    | some e => { bw with stringBuf := r.1, Error := some e }
    | none =>
      let we := bw.writer.write r.1
      { Error := we.2, writer := we.1, stringBuf := r.1 }

/-- `BufWriter.Value` (source lines 208-217). -/
def BufWriter.Value (bw : BufWriter) (fuel : Nat) (val : JValue) : Option BufWriter :=
  match bw.Error with
  | some _ => some bw
  | none =>
    match JA.Value fuel val [] with
    | none => none
    | some (sb, some e) => some { bw with stringBuf := sb, Error := some e }
    | some (sb, none) =>
      let we := bw.writer.write sb
      some { Error := we.2, writer := we.1, stringBuf := sb }

/-- `BufWriter.Object` (source lines 251-260). -/
def BufWriter.Object (bw : BufWriter) (fuel : Nat) (mp : List (List Nat × JValue)) :
    Option BufWriter :=
  match bw.Error with
  | some _ => some bw
  | none =>
    match JA.Object fuel mp [] with
    | none => none
    | some (sb, some e) => some { bw with stringBuf := sb, Error := some e }
    | some (sb, none) =>
      let we := bw.writer.write sb
      some { Error := we.2, writer := we.1, stringBuf := sb }

/-- `BufWriter.Array` (source lines 283-292). -/
def BufWriter.Array (bw : BufWriter) (fuel : Nat) (vs : List JValue) :
    Option BufWriter :=
  match bw.Error with
  | some _ => some bw
  | none =>
    match JA.Array fuel vs [] with
    | none => none
    | some (sb, some e) => some { bw with stringBuf := sb, Error := some e }
    | some (sb, none) =>
      let we := bw.writer.write sb
      some { Error := we.2, writer := we.1, stringBuf := sb }

/-- The stateless `Bool` append function (source lines 133-138). -/
def Bool (val : Bool) (buf : List Nat) : List Nat :=
  if val then buf ++ [116, 114, 117, 101] else buf ++ [102, 97, 108, 115, 101]

/-- Declarative side of the array contract: the comma-joined encodings
after the first one (a comma before each chunk). -/
def commaTail : List (List Nat) → List Nat
  | [] => []
  | c :: cs => 44 :: (c ++ commaTail cs)

/-- Declarative side of the array contract, following the spec's words:
the chunks joined with a single comma between consecutive entries, no
comma before the first and none trailing. -/
def commaSep : List (List Nat) → List Nat
  | [] => []
  | c :: cs => c ++ commaTail cs

/-- Declarative side of the array contract, following the spec's words:
each listed element encodes successfully from the running buffer,
appending its chunk; the element after it runs against that buffer
extended with the chunk and the separating comma. -/
def ChunkEncodes (fuel : Nat) : List JValue → List Nat → List (List Nat) → Prop
  | [], _, [] => True
  | [], _, _ :: _ => False
  | _ :: _, _, [] => False
  | v :: vs, buf, c :: cs =>
    Value fuel v buf = some (buf ++ c, none) ∧
      ChunkEncodes fuel vs (buf ++ c ++ [44]) cs

/-- The running buffer faced by the element following the successfully
encoded chunks `cs`, where `B` is the buffer before the first element:
`B` itself when no chunk precedes, otherwise the joined chunks plus the
pending separating comma. -/
def nextElemBuf (B : List Nat) : List (List Nat) → List Nat
  | [] => B
  | c :: cs => B ++ commaSep (c :: cs) ++ [44]

end JA

/-- Helper: on the UTF-8 bytes of U+2028 the scan loop consumes a unit of
fuel without advancing its index, for any amount of fuel, because the
U+2028/U+2029 branch of the source sets `start = i` and continues without
`i += size`. -/
theorem stringLoop_u2028_stuck (fuel : Nat) :
    ∀ buf, JA.stringLoop fuel [226, 128, 168] 0 0 buf = none := by
  induction fuel with
  | zero => intro buf; rfl
  | succ n ih =>
    intro buf
    have h : JA.stringLoop (n + 1) [226, 128, 168] 0 0 buf
        = JA.stringLoop n [226, 128, 168] 0 0 (buf ++ [92, 117, 50, 48, 50, 56]) := rfl
    rw [h]
    exact ih _

/-- Helper: the same for the UTF-8 bytes of U+2029. -/
theorem stringLoop_u2029_stuck (fuel : Nat) :
    ∀ buf, JA.stringLoop fuel [226, 128, 169] 0 0 buf = none := by
  induction fuel with
  | zero => intro buf; rfl
  | succ n ih =>
    intro buf
    have h : JA.stringLoop (n + 1) [226, 128, 169] 0 0 buf
        = JA.stringLoop n [226, 128, 169] 0 0 (buf ++ [92, 117, 50, 48, 50, 57]) := rfl
    rw [h]
    exact ih _

/-- Claim C1: the claim says that at an invalid UTF-8 position the String
encoder appends the six characters backslash, `u`, `f`, `f`, `f`, `d`
(the replacement-character escape); the code instead appends only the
five bytes backslash, `u`, `f`, `f`, `d` (source line 362 has only two
`f` digits), so the one-byte invalid input 0xFF encodes to a quoted
five-byte escape rather than the claimed six-byte one.  This theorem
evaluates the encoder at that failing input and records that the output
differs from the claimed one, exhibiting the code bug. -/
theorem C1_invalid_utf8_five_byte_escape :
    JA.String 8 [255] [] = some [34, 92, 117, 102, 102, 100, 34] ∧
    JA.String 8 [255] [] ≠ some [34, 92, 117, 102, 102, 102, 100, 34] := by
  decide

/-- Claim C2: the claim says a string containing U+2028 is returned with
that code point rendered as its six-character escape exactly once; on the code
the scan loop never returns on such an input, because the U+2028/U+2029
branch does not advance the index: for every fuel bound the loop is still
running (it keeps appending the escape forever).  This refutes the claim
and exhibits the non-termination bug. -/
theorem C2_u2028_never_returns (fuel : Nat) (buf : List Nat) :
    JA.String fuel [226, 128, 168] buf = none :=
  stringLoop_u2028_stuck fuel (buf ++ [34])

/-- Claim C3: the claim says every stateless append function terminates on
every input, in particular the String scan loop on strings containing
U+2028 or U+2029; on the code the scan loop runs forever on the string
consisting of U+2029 (and likewise U+2028): no fuel bound suffices for it
to return. -/
theorem C3_string_loop_diverges_on_u2029 (fuel : Nat) (buf : List Nat) :
    JA.String fuel [226, 128, 169] buf = none :=
  stringLoop_u2029_stuck fuel (buf ++ [34])

/-- Claim C9: for every field name and buffer, `FieldName` produces
exactly the `String` encoding with a single trailing colon appended, and
nothing else, at every fuel bound (when the string scan does not finish,
neither call returns); `FieldName` has no error result. -/
theorem C9_fieldname_is_string_plus_colon (fuel : Nat) (name buf : List Nat) :
    JA.FieldName fuel name buf = (JA.String fuel name buf).map (fun b => b ++ [58]) := by
  unfold JA.FieldName
  cases JA.String fuel name buf <;> rfl

/-- Claim C10: the signed and unsigned integer encoders agree byte for
byte on the shared non-negative `int64` range. -/
theorem C10_int64_uint64_agree (v : Int) (h0 : 0 ≤ v) (h1 : v < 2 ^ 63) (buf : List Nat) :
    JA.Int64 v buf = JA.Uint64 v.toNat buf := by
  unfold JA.Int64 JA.Uint64 JA.formatInt JA.formatUint
  rw [if_neg (by omega)]

/-- Witness for C10 at the concrete value 42. -/
theorem C10_int64_uint64_agree_witness :
    0 ≤ (42 : Int) ∧ (42 : Int) < 2 ^ 63 ∧
      JA.Int64 42 [] = JA.Uint64 (42 : Int).toNat [] :=
  ⟨by decide, by decide, C10_int64_uint64_agree 42 (by decide) (by decide) []⟩

/-- Counterexample to claim C4: at year 10000 with the one-byte input
buffer `[120]`, `Time` reports the error but returns the `nil` buffer
(the empty list), not a buffer byte-for-byte equal to the input: the
source returns `nil, fmt.Errorf(...)` on the year check. -/
theorem C4_cex_time_failure_returns_nil :
    (JA.Time ⟨10000, []⟩ [120]).2 = some JA.JAErr.yearOutOfRange ∧
    (JA.Time ⟨10000, []⟩ [120]).1 ≠ [120] := by
  decide

/-- Claim C4 as amended: the error conditions are exactly as claimed, and
`Float64` returns the input buffer unchanged on failure, but `Time`
returns the `nil` (empty) buffer on failure, discarding the input buffer
rather than returning it. -/
theorem C4_failure_paths (t : JA.GoTime) (f : JA.GoFloat) (buf : List Nat) :
    ((JA.Time t buf).2.isSome ↔ (t.year < 0 ∨ 10000 ≤ t.year)) ∧
    ((t.year < 0 ∨ 10000 ≤ t.year) →
      JA.Time t buf = ([], some JA.JAErr.yearOutOfRange)) ∧
    ((JA.Float64 f buf).2.isSome ↔ (f.isNaN || f.isInf) = true) ∧
    ((f.isNaN || f.isInf) = true →
      JA.Float64 f buf = (buf, some JA.JAErr.unsupportedFloatValue)) := by
  refine ⟨?_, ?_, ?_, ?_⟩
  · by_cases h : t.year < 0 ∨ 10000 ≤ t.year <;> simp [JA.Time, h]
  · intro h; simp [JA.Time, h]
  · cases f <;> simp [JA.Float64, JA.GoFloat.isNaN, JA.GoFloat.isInf]
  · intro h; cases f <;> simp_all [JA.Float64, JA.GoFloat.isNaN, JA.GoFloat.isInf]

/-- Witness for the amended C4 at year 10000 and at NaN. -/
theorem C4_failure_paths_witness :
    JA.Time ⟨10000, []⟩ [120] = ([], some JA.JAErr.yearOutOfRange) ∧
    JA.Float64 JA.GoFloat.nan [120] = ([120], some JA.JAErr.unsupportedFloatValue) := by
  have h := C4_failure_paths ⟨10000, []⟩ JA.GoFloat.nan [120]
  exact ⟨h.2.1 (Or.inr (by norm_num)), h.2.2.2 (by decide)⟩

/-- Counterexample to claim C7: an `int32` value is not dispatched to the
integer encoder branch; the type switch of `Value` only matches `int64`,
`int`, `uint64` and `uint`, so `int32` selects the reflective fallback
branch (whose marshal output for the value 5 is appended). -/
theorem C7_cex_int32_goes_to_fallback :
    JA.dispatch (.i32 5) = JA.Branch.fallbackB ∧
    JA.dispatch (.i32 5) ≠ JA.Branch.int64B ∧
    JA.Value 1 (.i32 5) [] = some ([53], none) := by
  refine ⟨rfl, by decide, rfl⟩

/-- Claim C7 as amended: `int64` and `int` values are widened to 64 bits
and encoded via `Int64`, `uint64` and `uint` via `Uint64`; the narrower
integer widths (such as `int32` and `uint32`) are not matched by the type
switch and fall through to the generic reflective fallback. -/
theorem C7_integer_dispatch (v : Int) (n : Nat) (fuel : Nat) (buf : List Nat) :
    JA.dispatch (.i64 v) = JA.Branch.int64B ∧
    JA.dispatch (.int v) = JA.Branch.int64B ∧
    JA.dispatch (.u64 n) = JA.Branch.uint64B ∧
    JA.dispatch (.uint n) = JA.Branch.uint64B ∧
    JA.Value fuel (.i64 v) buf = some (JA.Int64 v buf, none) ∧
    JA.Value fuel (.int v) buf = some (JA.Int64 v buf, none) ∧
    JA.Value fuel (.u64 n) buf = some (JA.Uint64 n buf, none) ∧
    JA.Value fuel (.uint n) buf = some (JA.Uint64 n buf, none) ∧
    JA.dispatch (.i32 v) = JA.Branch.fallbackB ∧
    JA.dispatch (.u32 n) = JA.Branch.fallbackB :=
  ⟨rfl, rfl, rfl, rfl, rfl, rfl, rfl, rfl, rfl, rfl⟩

/-- Claim C8: once the latched `Error` field of a `BufWriter` is non-nil,
every write operation is a no-op leaving the whole state (sink included)
unchanged, `Flush` returns the latched error without touching the sink,
and `Reset` clears the error and rebinds the writer. -/
theorem C8_sticky_error (bw : JA.BufWriter) (e : JA.JAErr) (h : bw.Error = some e)
    (fuel : Nat) (bs : List Nat) (b : Nat) (i : Int) (n : Nat) (v : Bool)
    (t : JA.GoTime) (f : JA.GoFloat) (s : List Nat) (val : JA.JValue)
    (mp : List (List Nat × JA.JValue)) (vs : List JA.JValue) (w : JA.BufioWriter) :
    bw.Raw bs = bw ∧ bw.RawString bs = bw ∧ bw.RawByte b = bw ∧
    bw.Int64 i = bw ∧ bw.Uint64 n = bw ∧ bw.Bool v = bw ∧
    bw.Time t = bw ∧ bw.Float64 f = bw ∧
    bw.String fuel s = some bw ∧ bw.FieldName fuel s = some bw ∧
    bw.Value fuel val = some bw ∧ bw.Object fuel mp = some bw ∧
    bw.Array fuel vs = some bw ∧
    bw.Flush = (bw, some e) ∧
    (bw.Reset w).Error = none ∧ (bw.Reset w).writer = w := by
  simp [JA.BufWriter.Raw, JA.BufWriter.RawString, JA.BufWriter.RawByte,
    JA.BufWriter.Int64, JA.BufWriter.Uint64, JA.BufWriter.Bool,
    JA.BufWriter.Time, JA.BufWriter.Float64, JA.BufWriter.String,
    JA.BufWriter.FieldName, JA.BufWriter.Value, JA.BufWriter.Object,
    JA.BufWriter.Array, JA.BufWriter.Flush, JA.BufWriter.Reset, h]

/-- Witness for C8 at a concrete latched state. -/
theorem C8_sticky_error_witness :
    (⟨some (JA.JAErr.delegated 0), ⟨[], none⟩, []⟩ : JA.BufWriter).Error
        = some (JA.JAErr.delegated 0) ∧
    JA.BufWriter.Raw ⟨some (JA.JAErr.delegated 0), ⟨[], none⟩, []⟩ [7]
        = ⟨some (JA.JAErr.delegated 0), ⟨[], none⟩, []⟩ ∧
    JA.BufWriter.Flush ⟨some (JA.JAErr.delegated 0), ⟨[], none⟩, []⟩
        = (⟨some (JA.JAErr.delegated 0), ⟨[], none⟩, []⟩, some (JA.JAErr.delegated 0)) := by
  have h := C8_sticky_error ⟨some (JA.JAErr.delegated 0), ⟨[], none⟩, []⟩
    (JA.JAErr.delegated 0) rfl 1 [7] 0 0 0 true ⟨0, []⟩ JA.GoFloat.nan []
    (JA.JValue.i64 0) [] [] ⟨[], none⟩
  exact ⟨rfl, h.1, h.2.2.2.2.2.2.2.2.2.2.2.2.2.1⟩

/-- Helper: the array loop with the comma flag set encodes the remaining
elements as comma-prefixed chunks and closes the bracket. -/
theorem arrayLoop_true_success (fuel : Nat) :
    ∀ vs cs B, JA.ChunkEncodes fuel vs (B ++ [44]) cs →
      JA.arrayLoop fuel true vs B = some (B ++ JA.commaTail cs ++ [93], none) := by
  intro vs
  induction vs with
  | nil =>
    intro cs B h
    cases cs with
    | nil => simp [JA.arrayLoop, JA.commaTail]
    | cons c cs => exact h.elim
  | cons v rest ih =>
    intro cs B h
    cases cs with
    | nil => exact h.elim
    | cons c cs =>
      obtain ⟨h1, h2⟩ := h
      have step : JA.arrayLoop fuel true (v :: rest) B
          = JA.arrayLoop fuel true rest (B ++ [44] ++ c) := by
        conv_lhs => rw [show JA.arrayLoop fuel true (v :: rest) B
          = (match JA.Value fuel v (B ++ [44]) with
             | none => none
             | some (b2, some e) => some (b2, some e)
             | some (b2, none) => JA.arrayLoop fuel true rest b2) from rfl]
        rw [h1]
      rw [step, ih cs (B ++ [44] ++ c) h2]
      simp [JA.commaTail]

/-- Helper: the array loop with the comma flag clear (the state right
after the opening bracket) encodes the elements as comma-joined chunks
and closes the bracket. -/
theorem arrayLoop_false_success (fuel : Nat) :
    ∀ vs cs B, JA.ChunkEncodes fuel vs B cs →
      JA.arrayLoop fuel false vs B = some (B ++ JA.commaSep cs ++ [93], none) := by
  intro vs cs B h
  cases vs with
  | nil =>
    cases cs with
    | nil => simp [JA.arrayLoop, JA.commaSep]
    | cons c cs => exact h.elim
  | cons v rest =>
    cases cs with
    | nil => exact h.elim
    | cons c cs =>
      obtain ⟨h1, h2⟩ := h
      have step : JA.arrayLoop fuel false (v :: rest) B
          = JA.arrayLoop fuel true rest (B ++ c) := by
        conv_lhs => rw [show JA.arrayLoop fuel false (v :: rest) B
          = (match JA.Value fuel v B with
             | none => none
             | some (b2, some e) => some (b2, some e)
             | some (b2, none) => JA.arrayLoop fuel true rest b2) from rfl]
        rw [h1]
      rw [step, arrayLoop_true_success fuel rest cs (B ++ c) h2]
      simp [JA.commaSep]

/-- Helper: the array loop with the comma flag set aborts with the first
failing element's own result, for any elements after it. -/
theorem arrayLoop_true_abort (fuel : Nat) :
    ∀ pre cs v out e rest B, JA.ChunkEncodes fuel pre (B ++ [44]) cs →
      JA.Value fuel v (B ++ JA.commaTail cs ++ [44]) = some (out, some e) →
      JA.arrayLoop fuel true (pre ++ v :: rest) B = some (out, some e) := by
  intro pre
  induction pre with
  | nil =>
    intro cs v out e rest B hc hv
    cases cs with
    | nil =>
      simp only [JA.commaTail, List.append_nil] at hv
      conv_lhs => rw [show JA.arrayLoop fuel true ([] ++ v :: rest) B
        = (match JA.Value fuel v (B ++ [44]) with
           | none => none
           | some (b2, some e) => some (b2, some e)
           | some (b2, none) => JA.arrayLoop fuel true rest b2) from rfl]
      rw [hv]
    | cons c cs => exact hc.elim
  | cons p pre' ih =>
    intro cs v out e rest B hc hv
    cases cs with
    | nil => exact hc.elim
    | cons c cs =>
      obtain ⟨h1, h2⟩ := hc
      have step : JA.arrayLoop fuel true ((p :: pre') ++ v :: rest) B
          = JA.arrayLoop fuel true (pre' ++ v :: rest) (B ++ [44] ++ c) := by
        conv_lhs => rw [show JA.arrayLoop fuel true ((p :: pre') ++ v :: rest) B
          = (match JA.Value fuel p (B ++ [44]) with
             | none => none
             | some (b2, some e) => some (b2, some e)
             | some (b2, none) => JA.arrayLoop fuel true (pre' ++ v :: rest) b2) from rfl]
        rw [h1]
      have hbuf : B ++ JA.commaTail (c :: cs) ++ [44]
          = (B ++ [44] ++ c) ++ JA.commaTail cs ++ [44] := by
        simp [JA.commaTail]
      rw [hbuf] at hv
      rw [step]
      exact ih cs v out e rest (B ++ [44] ++ c) h2 hv

/-- Helper: the array loop aborts on the first failing element with that
element's own result, regardless of the elements after it. -/
theorem arrayLoop_false_abort (fuel : Nat) :
    ∀ pre cs v out e rest B, JA.ChunkEncodes fuel pre B cs →
      JA.Value fuel v (JA.nextElemBuf B cs) = some (out, some e) →
      JA.arrayLoop fuel false (pre ++ v :: rest) B = some (out, some e) := by
  intro pre cs v out e rest B hc hv
  cases pre with
  | nil =>
    cases cs with
    | nil =>
      conv_lhs => rw [show JA.arrayLoop fuel false ([] ++ v :: rest) B
        = (match JA.Value fuel v B with
           | none => none
           | some (b2, some e) => some (b2, some e)
           | some (b2, none) => JA.arrayLoop fuel true rest b2) from rfl]
      rw [show JA.nextElemBuf B [] = B from rfl] at hv
      rw [hv]
    | cons c cs => exact hc.elim
  | cons p pre' =>
    cases cs with
    | nil => exact hc.elim
    | cons c cs =>
      obtain ⟨h1, h2⟩ := hc
      have step : JA.arrayLoop fuel false ((p :: pre') ++ v :: rest) B
          = JA.arrayLoop fuel true (pre' ++ v :: rest) (B ++ c) := by
        conv_lhs => rw [show JA.arrayLoop fuel false ((p :: pre') ++ v :: rest) B
          = (match JA.Value fuel p B with
             | none => none
             | some (b2, some e) => some (b2, some e)
             | some (b2, none) => JA.arrayLoop fuel true (pre' ++ v :: rest) b2) from rfl]
        rw [h1]
      have hbuf : JA.nextElemBuf B (c :: cs)
          = (B ++ c) ++ JA.commaTail cs ++ [44] := by
        simp [JA.nextElemBuf, JA.commaSep]
      rw [hbuf] at hv
      rw [step]
      exact arrayLoop_true_abort fuel pre' cs v out e rest (B ++ c) h2 hv

/-- Claim C6: `Array` appends the opening bracket, the encodings of the
elements in input order joined by single commas (none before the first,
none trailing), and the closing bracket, whenever every element encodes
successfully; and on the first element whose encoding fails it returns
that element's error immediately, without encoding any later element and
without appending the closing bracket (the result is exactly the failing
element's own output and error, whatever elements follow). -/
theorem C6_array_contract (fuel : Nat) (buf : List Nat) :
    (∀ vs cs, JA.ChunkEncodes fuel vs (buf ++ [91]) cs →
        JA.Array fuel vs buf = some (buf ++ [91] ++ JA.commaSep cs ++ [93], none)) ∧
    (∀ pre cs v out e rest, JA.ChunkEncodes fuel pre (buf ++ [91]) cs →
        JA.Value fuel v (JA.nextElemBuf (buf ++ [91]) cs) = some (out, some e) →
        JA.Array fuel (pre ++ v :: rest) buf = some (out, some e)) := by
  constructor
  · intro vs cs h
    have := arrayLoop_false_success fuel vs cs (buf ++ [91]) h
    simpa [JA.Array] using this
  · intro pre cs v out e rest hc hv
    have := arrayLoop_false_abort fuel pre cs v out e rest (buf ++ [91]) hc hv
    simpa [JA.Array] using this

/-- Witness for C6: the two-element array of the integers 1 and 2 encodes
from the empty buffer to the bytes of `[1,2]`. -/
theorem C6_array_contract_witness :
    JA.ChunkEncodes 4 [JA.JValue.i64 1, JA.JValue.i64 2] ([] ++ [91]) [[49], [50]] ∧
    JA.Array 4 [JA.JValue.i64 1, JA.JValue.i64 2] []
      = some ([91, 49, 44, 50, 93], none) := by
  have hc : JA.ChunkEncodes 4 [JA.JValue.i64 1, JA.JValue.i64 2] ([] ++ [91]) [[49], [50]] :=
    ⟨rfl, rfl, trivial⟩
  refine ⟨hc, ?_⟩
  have h := (C6_array_contract 4 []).1 [JA.JValue.i64 1, JA.JValue.i64 2] [[49], [50]] hc
  simpa using h
